import Mathlib

/-!
Verification of the column-resolution and aggregation engine of the
"analise-capital-cognitivo-brasil" pipelines.

The definitions below are shallow embeddings of the Python sources:

* `find_col_flexible`       — SaebPipeline.find_col_flexible
  (src/cog/cog_03_process_unified_saeb_pypeline.py, lines 92-101); the ENEM
  variant (src/cog/process_unified_enem_pypeline.py, lines 125-130) is the
  special case with no substring fallback.
* `filterMode` / `accepts`  — EnemPipeline.process methodology decision and
  cohort filter (src/cog/process_unified_enem_pypeline.py).
* `get_region_code_2018`    — src/cog/legacy/01_process_pisa_historical.py.
* `resolve_ibge_from_text`  — src/cog/02_process_pisa_2015_uf_region.py.
* `batchState` / `finalizeState` / `finalRowsRel` — EnemPipeline.process
  chunked aggregation, consolidation and final sort
  (src/cog/04_process_enem_historical.py).
* `saebAggregate`           — SaebPipeline.process aggregation
  (src/cog/cog_03_process_unified_saeb_pypeline.py).
* `aggregate_to_region`     — src/cog/analysis_triangulation_waves.py.
* `classifyNetwork`         — the Is_Public assignment of SaebPipeline.process.

Machine floats are modelled by `Option ℚ` (`none` = NaN / missing), so all
identities are exact-arithmetic statements.
-/

/-- Python `str.upper()` restricted to the characters occurring in this
repository's header names and geographic dictionaries: ASCII letters plus
the accented Latin letters used in Brazilian state names. -/
def pyUpperChar (c : Char) : Char :=
  if c = 'ã' then 'Ã'
  else if c = 'á' then 'Á'
  else if c = 'â' then 'Â'
  else if c = 'à' then 'À'
  else if c = 'é' then 'É'
  else if c = 'ê' then 'Ê'
  else if c = 'í' then 'Í'
  else if c = 'ó' then 'Ó'
  else if c = 'ô' then 'Ô'
  else if c = 'õ' then 'Õ'
  else if c = 'ú' then 'Ú'
  else if c = 'ü' then 'Ü'
  else if c = 'ç' then 'Ç'
  else c.toUpper

/-- Python `str.upper()` on whole strings (see `pyUpperChar`). -/
def pyUpper (s : String) : String :=
  String.mk (s.toList.map pyUpperChar)

/-- `isLeadingOf pat l` holds when `pat` is an initial segment of `l`
(the primitive behind Python `str.startswith` and `in`). -/
def isLeadingOf : List Char → List Char → Bool
  | [], _ => true
  | _ :: _, [] => false
  | a :: as, b :: bs => a = b && isLeadingOf as bs

/-- Scan of `hay` for an occurrence of `pat` starting at each position. -/
def containsAt (pat : List Char) : List Char → Bool
  | [] => isLeadingOf pat []
  | c :: rest => isLeadingOf pat (c :: rest) || containsAt pat rest

/-- Python `pat in hay` on strings (substring containment). -/
def strContains (hay pat : String) : Bool :=
  containsAt pat.toList hay.toList

/-- Python `s.startswith(pre)`. -/
def pyStartsWith (s pre : String) : Bool :=
  isLeadingOf pre.toList s.toList

/-- Python `s[a:b]` (character slice, clamped at the string's end). -/
def strSlice (s : String) (a b : Nat) : String :=
  String.mk ((s.toList.drop a).take (b - a))

/-- Python `s.strip()`: drop whitespace from both ends. -/
def pyStrip (s : String) : String :=
  String.mk
    (((s.toList.dropWhile Char.isWhitespace).reverse.dropWhile
        Char.isWhitespace).reverse)

/-- A Python dict from strings to strings, modelled by its lookup function;
`dictAssign d k v` is the assignment `d[k] = v` (a later assignment to the
same key overwrites an earlier one). -/
def dictAssign (d : String → Option String) (k v : String) :
    String → Option String :=
  fun q => if q = k then some v else d q

/-- The dict comprehension of `find_col_flexible`, mapping `h.upper()` to `h`
for each header entry `h` in order; a later entry with the same uppercased
form overwrites an earlier one. -/
def headerUpperDict (header : List String) : String → Option String :=
  header.foldl (fun d h => dictAssign d (pyUpper h) h) (fun _ => none)

/-- `SaebPipeline.find_col_flexible(header, candidates, substring_fallback)`
(cog_03_process_unified_saeb_pypeline.py, lines 92-101): build the dict from
uppercased header entries to the original entries; return the dict entry of
the first candidate whose uppercased form is a key; otherwise, when a
substring fallback is given, return the first header entry containing it
case-insensitively; otherwise `none`.  The ENEM variant
(process_unified_enem_pypeline.py, lines 125-130) is the case `fb = none`. -/
def find_col_flexible (header candidates : List String) (fb : Option String) :
    Option String :=
  let d := headerUpperDict header
  match candidates.find? (fun c => (d (pyUpper c)).isSome) with
  | some c => d (pyUpper c)
  | none =>
      match fb with
      | some f => header.find? (fun h => strContains (pyUpper h) (pyUpper f))
      | none => none

/-- The resolution order as the spec describes it, amended on one point: the
first candidate pattern (in preference order) with a case-insensitive exact
match wins, and the header entry returned for it is the LAST occurrence in
header order (the dict comprehension lets later duplicates overwrite earlier
ones); only when no candidate exact-matches is the substring fallback tried,
returning the FIRST header entry that contains the fallback pattern. -/
def findColSpec (header candidates : List String) (fb : Option String) :
    Option String :=
  match candidates.find?
      (fun c => header.any (fun h => pyUpper h = pyUpper c)) with
  | some c => (header.reverse).find? (fun h => pyUpper h = pyUpper c)
  | none =>
      match fb with
      | some f => header.find? (fun h => strContains (pyUpper h) (pyUpper f))
      | none => none

/-- Candidate patterns of the geographic-unit column in the SAEB pipeline
(cog_03_process_unified_saeb_pypeline.py, line 170). -/
def geoCandidatesSaeb : List String := ["ID_UF", "CO_UF", "UF", "SG_UF"]

/-- Cohort-filter policy of the unified ENEM pipeline
(process_unified_enem_pypeline.py, lines 166-174). -/
inductive Mode where
  | strict
  | proxy
  | allData
deriving DecidableEq, Repr

/-- Whether the status column resolved: `TARGET_COLS['STATUS']` is the single
candidate `TP_ST_CONCLUSAO` (process_unified_enem_pypeline.py, line 89). -/
def hasStatusCol (header : List String) : Bool :=
  (find_col_flexible header ["TP_ST_CONCLUSAO"] none).isSome

/-- Whether the school-affiliation column resolved: `TARGET_COLS['SCHOOL_ID']`
is the single candidate `CO_ESCOLA` (line 88). -/
def hasSchoolCol (header : List String) : Bool :=
  (find_col_flexible header ["CO_ESCOLA"] none).isSome

/-- The methodology decision of `EnemPipeline.process`
(process_unified_enem_pypeline.py, lines 162-174): STRICT when the status
column resolved, else PROXY when the school id resolved, else ALL_DATA. -/
def filterMode (header : List String) : Mode :=
  if hasStatusCol header then Mode.strict
  else if hasSchoolCol header then Mode.proxy
  else Mode.allData

/-- One student record of the unified ENEM pipeline after column renaming;
numeric cells are `Option ℚ` with `none` for NaN. -/
structure EnemRec where
  uf : String
  status : Option ℚ
  schoolId : Option ℚ
  scores : Fin 5 → Option ℚ

/-- The chunk filter of `EnemPipeline.process`
(process_unified_enem_pypeline.py, lines 199-202): STRICT keeps rows with
`STATUS == 2` (a NaN status compares unequal), PROXY keeps rows with a
non-null `SCHOOL_ID`, ALL_DATA keeps every row. -/
def accepts (m : Mode) (r : EnemRec) : Bool :=
  match m with
  | Mode.strict => r.status = some 2
  | Mode.proxy => r.schoolId.isSome
  | Mode.allData => true

/-- The output rows of the unified ENEM pipeline, reduced to the geographic
key and the `Grade` provenance column, which `EnemPipeline.process` sets to
the filter mode for every row (line 241): one row per geographic unit
(sorted ascending, as the pandas groupby index is) among accepted records. -/
def enemUnifiedRows (header : List String) (recs : List EnemRec) :
    List (String × Mode) :=
  let kept := recs.filter (fun r => accepts (filterMode header) r)
  let ufs := ((kept.map EnemRec.uf).dedup).insertionSort (· ≤ ·)
  ufs.map (fun u => (u, filterMode header))

/-- The two-digit region table of `get_region_code_2018`
(legacy/01_process_pisa_historical.py, lines 196-200). -/
def regionDigitTable (code : String) : Option String :=
  if code = "01" then some "North"
  else if code = "02" then some "Northeast"
  else if code = "03" then some "Southeast"
  else if code = "04" then some "South"
  else if code = "05" then some "Center-West"
  else none

/-- `get_region_code_2018(stratum)` (legacy/01_process_pisa_historical.py,
lines 191-202): uppercase and strip the raw stratum; when it starts with
`BRA`, slice characters 3..5 and map `01`..`05` to the region name; in every
other case the result is `UNKNOWN`. -/
def get_region_code_2018 (stratum : String) : String :=
  let s := pyStrip (pyUpper stratum)
  if pyStartsWith s "BRA" then
    let code := strSlice s 3 5
    if code = "01" then "North"
    else if code = "02" then "Northeast"
    else if code = "03" then "Southeast"
    else if code = "04" then "South"
    else if code = "05" then "Center-West"
    else "UNKNOWN"
  else "UNKNOWN"

/-- `NAME_TO_IBGE` (02_process_pisa_2015_uf_region.py, lines 57-67), in dict
insertion order. -/
def NAME_TO_IBGE : List (String × Nat) :=
  [("RONDONIA", 11), ("RONDÔNIA", 11), ("ACRE", 12), ("AMAZONAS", 13),
   ("RORAIMA", 14), ("PARA", 15), ("PARÁ", 15), ("AMAPA", 16), ("AMAPÁ", 16),
   ("TOCANTINS", 17), ("MARANHAO", 21), ("MARANHÃO", 21), ("PIAUI", 22),
   ("PIAUÍ", 22), ("CEARA", 23), ("CEARÁ", 23), ("RIO GRANDE DO NORTE", 24),
   ("PARAIBA", 25), ("PARAÍBA", 25), ("PERNAMBUCO", 26), ("ALAGOAS", 27),
   ("SERGIPE", 28), ("BAHIA", 29), ("MINAS GERAIS", 31),
   ("ESPIRITO SANTO", 32), ("ESPÍRITO SANTO", 32), ("RIO DE JANEIRO", 33),
   ("SAO PAULO", 35), ("SÃO PAULO", 35), ("PARANA", 41), ("PARANÁ", 41),
   ("SANTA CATARINA", 42), ("RIO GRANDE DO SUL", 43),
   ("MATO GROSSO DO SUL", 50), ("MATO GROSSO", 51), ("GOIAS", 52),
   ("GOIÁS", 52), ("DISTRITO FEDERAL", 53)]

/-- The name dictionary's keys sorted by decreasing length; Python
`sorted(keys, key=len, reverse=True)` is stable, and so is this insertion
sort, so names of equal length stay in dict insertion order. -/
def sortedNamesByLen : List String :=
  (NAME_TO_IBGE.map Prod.fst).insertionSort
    (fun a b => b.length ≤ a.length)

/-- `resolve_ibge_from_text(text_label)` (02_process_pisa_2015_uf_region.py,
lines 85-91): uppercase the label, scan the dictionary names from longest to
shortest, and return the IBGE code of the first name contained in the label;
`none` when no name occurs. -/
def resolve_ibge_from_text (textLabel : String) : Option Nat :=
  let tu := pyUpper textLabel
  match sortedNamesByLen.find? (fun n => strContains tu n) with
  | some n => NAME_TO_IBGE.lookup n
  | none => none

/-- Running per-column aggregation state of EnemPipeline.process
(04_process_enem_historical.py, lines 150-161): running sum, running sum of
squares and running count of the non-missing values of one column. -/
structure ColState where
  sum : ℚ
  sq : ℚ
  cnt : ℕ
deriving DecidableEq, Repr

/-- Fold one value (NaN = `none`) into a column state: pandas `sum`, the
squared-column `sum` and `count` all skip NaN. -/
def addVal (st : ColState) : Option ℚ → ColState
  | none => st
  | some q => ⟨st.sum + q, st.sq + q * q, st.cnt + 1⟩

def zeroCol : ColState := ⟨0, 0, 0⟩

def addCol (a b : ColState) : ColState := ⟨a.sum + b.sum, a.sq + b.sq, a.cnt + b.cnt⟩

/-- One normalized observation of the historical ENEM pipeline after the
chunk-level cleaning (zero scores already replaced by NaN): the exam state,
the five subject scores CN, CH, LC, MT, Essay in `SCORE_MAP` order, and the
0/1/NaN `Is_Public` indicator. -/
structure Obs where
  uf : String
  scores : Fin 5 → Option ℚ
  isPublic : Option ℚ

/-- The subject scores available in one record. -/
def compositeVals (o : Obs) : List ℚ :=
  (List.finRange 5).filterMap (fun i => o.scores i)

/-- `Mean_General` of one record (04_process_enem_historical.py, line 142):
the row-wise mean of the available subject scores, NaN when none is. -/
def composite (o : Obs) : Option ℚ :=
  if compositeVals o = [] then none
  else some ((compositeVals o).sum / (compositeVals o).length)

/-- The six aggregated columns of one record: the five subjects followed by
`Mean_General`. -/
def targetVal (o : Obs) (i : Fin 6) : Option ℚ :=
  if h : (i : ℕ) < 5 then o.scores ⟨i, h⟩ else composite o

/-- Per-geo-unit running state: one `ColState` per aggregated column, plus
running sum and count of the determinable `Is_Public` indicator
(`Public_Sum` and `Network_Valid_Count`). -/
structure UFState where
  cols : Fin 6 → ColState
  pubSum : ℚ
  pubCnt : ℕ

def zeroUF : UFState := ⟨fun _ => zeroCol, 0, 0⟩

def addUF (a b : UFState) : UFState :=
  ⟨fun i => addCol (a.cols i) (b.cols i), a.pubSum + b.pubSum, a.pubCnt + b.pubCnt⟩

/-- The contribution of a single observation to its geo unit's state. -/
def obsUF (o : Obs) : UFState :=
  { cols := fun i => addVal zeroCol (targetVal o i)
    pubSum := match o.isPublic with | none => 0 | some q => q
    pubCnt := match o.isPublic with | none => 0 | some _ => 1 }

/-- The full aggregation state: one `UFState` per geo unit (geo units never
seen are at the zero state, as for an absent groupby key). -/
def AggState : Type := String → UFState

def zeroState : AggState := fun _ => zeroUF

/-- Accumulate one observation (one row of a chunk groupby). -/
def addObs (s : AggState) (o : Obs) : AggState :=
  fun u => if u = o.uf then addUF (s u) (obsUF o) else s u

/-- Aggregate one batch of observations, as the per-chunk
`groupby('UF').agg(['sum','count'])` plus the squared-column and network
sums do (04_process_enem_historical.py, lines 150-161). -/
def batchState (l : List Obs) : AggState :=
  l.foldl addObs zeroState

/-- Merge two partial states, as the consolidation
`pd.concat(agg_storage).groupby(level=0).sum()` does (line 169): all running
sums and counts add per geo unit. -/
def mergeStates (s t : AggState) : AggState :=
  fun u => addUF (s u) (t u)

/-- The finalized summary of one geo unit (04_process_enem_historical.py,
lines 170-186): per-column mean `sum/count`, clipped variance
`max 0 (sum_sq/count - mean^2)` (the reported standard deviation is its
square root), per-column count, `Public_Share = Public_Sum /
Network_Valid_Count` and `Network_Data_Coverage = Network_Valid_Count /
count(Essay)`; a division by a zero count is NaN (`none`). -/
structure SummaryQ where
  mean : Fin 6 → Option ℚ
  varClip : Fin 6 → Option ℚ
  cnt : Fin 6 → ℕ
  pubShare : Option ℚ
  netCoverage : Option ℚ

def colMean (c : ColState) : Option ℚ :=
  if c.cnt = 0 then none else some (c.sum / c.cnt)

def colVarClip (c : ColState) : Option ℚ :=
  if c.cnt = 0 then none
  else some (max 0 (c.sq / c.cnt - (c.sum / c.cnt) * (c.sum / c.cnt)))

def finalizeState (s : AggState) (u : String) : SummaryQ :=
  { mean := fun i => colMean ((s u).cols i)
    varClip := fun i => colVarClip ((s u).cols i)
    cnt := fun i => ((s u).cols i).cnt
    pubShare := if (s u).pubCnt = 0 then none
      else some ((s u).pubSum / ((s u).pubCnt : ℚ))
    netCoverage := if ((s u).cols 4).cnt = 0 then none
      else some (((s u).pubCnt : ℚ) / (((s u).cols 4).cnt : ℚ)) }

/-- `Mean_General` of one geo unit after consolidation. -/
def meanGeneralOf (l : List Obs) (u : String) : Option ℚ :=
  colMean ((batchState l u).cols 5)

/-- The geo units present in the data, in the ascending order of the sorted
pandas groupby index. -/
def presentUFs (l : List Obs) : List String :=
  ((l.map Obs.uf).dedup).insertionSort (· ≤ ·)

/-- The consolidated table before the final sort: one row per geo unit in
ascending geo-unit order, carrying the composite (`Mean_General`) mean. -/
def rawRows (l : List Obs) : List (String × Option ℚ) :=
  (presentUFs l).map (fun u => (u, meanGeneralOf l u))

/-- The descending comparison used by the final sort on composite means. -/
def descByMean (a b : String × ℚ) : Prop := b.2 ≤ a.2

instance : DecidableRel descByMean :=
  fun a b => inferInstanceAs (Decidable (b.2 ≤ a.2))

/-- `out` is a possible emitted row sequence of `EnemPipeline.process`,
reduced to the geo unit and its composite mean: the consolidated table (in
ascending geo-unit order, the sorted groupby index) goes through
`final_df.sort_values('Mean_General', ascending=False)` (line 196).  pandas
`nargsort` sorts the non-NaN rows with the default `kind='quicksort'` —
numpy's introsort, which runs unstable quicksort partition passes on any
range longer than 16 entries, so on this table (one row per geo unit, up to
27) the relative order of rows with equal keys is NOT specified — and then
appends the NaN rows behind them in pre-sort order (`na_position='last'`).
The relation fixes exactly what the library guarantees: the non-NaN rows
are some rearrangement sorted by key descending, followed by the NaN rows
in ascending geo-unit order. -/
def finalRowsRel (l : List Obs) (out : List (String × Option ℚ)) : Prop :=
  ∃ s : List (String × ℚ),
    ((rawRows l).filterMap (fun p => (p.2).map (fun q => (p.1, q)))).Perm s
    ∧ s.Pairwise descByMean
    ∧ out = s.map (fun p => (p.1, some p.2))
        ++ (rawRows l).filter (fun p => p.2.isNone)

/-- Seventeen observations with identical scores, one per geo unit in
ascending order: the smallest table on which numpy's argsort takes an
unstable quicksort partition pass (it insertion-sorts only ranges of at
most 16 entries). -/
def tieObs : List Obs :=
  ["AC", "AL", "AM", "AP", "BA", "CE", "DF", "ES", "GO", "MA", "MG", "MS",
   "MT", "PA", "PB", "PE", "PI"].map
    (fun u => ⟨u, (fun j => if j.val = 0 then some 500 else none), none⟩)

/-- A descending-sorted rearrangement of the seventeen equal-mean rows with
the geo units in reverse order. -/
def tieRowsDesc : List (String × ℚ) :=
  [("PI", 500), ("PE", 500), ("PB", 500), ("PA", 500), ("MT", 500),
   ("MS", 500), ("MG", 500), ("MA", 500), ("GO", 500), ("ES", 500),
   ("DF", 500), ("CE", 500), ("BA", 500), ("AP", 500), ("AM", 500),
   ("AL", 500), ("AC", 500)]

/-- The corresponding emitted row sequence. -/
def tieOut : List (String × Option ℚ) :=
  [("PI", some 500), ("PE", some 500), ("PB", some 500), ("PA", some 500),
   ("MT", some 500), ("MS", some 500), ("MG", some 500), ("MA", some 500),
   ("GO", some 500), ("ES", some 500), ("DF", some 500), ("CE", some 500),
   ("BA", some 500), ("AP", some 500), ("AM", some 500), ("AL", some 500),
   ("AC", some 500)]

/-- The zero cleaning of the historical ENEM pipeline
(04_process_enem_historical.py, line 139): `replace(0, np.nan)` turns a
subject score of exactly zero into NaN. -/
def cleanZero (v : Option ℚ) : Option ℚ :=
  match v with
  | none => none
  | some q => if q = 0 then none else some q

/-- A raw ENEM record before the zero cleaning. -/
structure RawEnemObs where
  uf : String
  raw : Fin 5 → Option ℚ
  isPublicRaw : Option ℚ

/-- Chunk cleaning: apply `replace(0, np.nan)` to every subject score. -/
def cleanObs (r : RawEnemObs) : Obs :=
  { uf := r.uf, scores := fun i => cleanZero (r.raw i), isPublic := r.isPublicRaw }

/-- `IBGE_TO_SIGLA` (cog_03_process_unified_saeb_pypeline.py, lines 70-75). -/
def IBGE_TO_SIGLA : List (Nat × String) :=
  [(11, "RO"), (12, "AC"), (13, "AM"), (14, "RR"), (15, "PA"), (16, "AP"),
   (17, "TO"), (21, "MA"), (22, "PI"), (23, "CE"), (24, "RN"), (25, "PB"),
   (26, "PE"), (27, "AL"), (28, "SE"), (29, "BA"), (31, "MG"), (32, "ES"),
   (33, "RJ"), (35, "SP"), (41, "PR"), (42, "SC"), (43, "RS"), (50, "MS"),
   (51, "MT"), (52, "GO"), (53, "DF")]

/-- One school row of the SAEB pipeline in the configuration of the cited
header `["ID_UF","MEDIA_EM_LP","MEDIA_EM_MT"]`: a numeric geo code and the
two proficiency means after numeric coercion (`none` = NaN).  No
administrative-dependency and no student-count column resolve for this
header, so `Is_Public` is the constant 1 and the student count the constant
0 (`DUMMY_QTY`); both are therefore omitted from the model. -/
structure SaebRec where
  idUF : Nat
  lp : Option ℚ
  mt : Option ℚ

/-- One output row of the SAEB pipeline (same configuration). -/
structure SaebRow where
  uf : String
  langMean : ℚ
  mathMean : ℚ
  general : ℚ
deriving DecidableEq, Repr

/-- `SaebPipeline.process` aggregation
(cog_03_process_unified_saeb_pypeline.py, lines 197-244) for the cited
header: map the numeric geo code through `IBGE_TO_SIGLA` (unmapped codes
become NaN keys and are dropped by the groupby), drop every row in which
EITHER proficiency mean is NaN (`dropna(subset=[c_lp, c_mt])`), group by geo
unit (ascending key order), average each proficiency column, derive
`SAEB_General` as the half-sum, and sort by `SAEB_General` descending
(stable, NaN-free keys). -/
def saebAggregate (records : List SaebRec) : List SaebRow :=
  let sub := records.filter (fun r => r.lp.isSome && r.mt.isSome)
  let keyed := sub.filterMap
    (fun r => (IBGE_TO_SIGLA.lookup r.idUF).map (fun s => (s, r)))
  let ufs := ((keyed.map Prod.fst).dedup).insertionSort (· ≤ ·)
  let rows := ufs.map (fun u =>
    let ms := (keyed.filter (fun p => p.1 = u)).map Prod.snd
    let lps := ms.filterMap SaebRec.lp
    let mts := ms.filterMap SaebRec.mt
    let lm := lps.sum / (lps.length : ℚ)
    let mm := mts.sum / (mts.length : ℚ)
    { uf := u, langMean := lm, mathMean := mm, general := (lm + mm) / 2 })
  rows.insertionSort (fun a b => b.general ≤ a.general)

/-- `UF_TO_REGION` (analysis_triangulation_waves.py, lines 46-52). -/
def UF_TO_REGION : List (String × String) :=
  [("AC", "North"), ("AL", "Northeast"), ("AP", "North"), ("AM", "North"),
   ("BA", "Northeast"), ("CE", "Northeast"), ("DF", "Center-West"),
   ("ES", "Southeast"), ("GO", "Center-West"), ("MA", "Northeast"),
   ("MT", "Center-West"), ("MS", "Center-West"), ("MG", "Southeast"),
   ("PA", "North"), ("PB", "Northeast"), ("PR", "South"),
   ("PE", "Northeast"), ("PI", "Northeast"), ("RJ", "Southeast"),
   ("RN", "Northeast"), ("RS", "South"), ("RO", "North"), ("RR", "North"),
   ("SC", "South"), ("SP", "Southeast"), ("SE", "Northeast"),
   ("TO", "North")]

/-- `aggregate_to_region(df_state)` (analysis_triangulation_waves.py, lines
74-84), for a table with one score column: map each state key to its region
(states outside the map become NaN keys, dropped by the groupby), group by
region (ascending key order) and take the unweighted mean of the score. -/
def aggregate_to_region (rows : List (String × ℚ)) : List (String × ℚ) :=
  let keyed := rows.filterMap
    (fun p => (UF_TO_REGION.lookup p.1).map (fun rg => (rg, p.2)))
  let regs := ((keyed.map Prod.fst).dedup).insertionSort (· ≤ ·)
  regs.map (fun rg =>
    let vs := (keyed.filter (fun q => q.1 = rg)).map Prod.snd
    (rg, vs.sum / (vs.length : ℚ)))

/-- A raw cell of the administrative-dependency column. -/
inductive Cell where
  | num (q : ℚ)
  | text (s : String)
  | na
deriving DecidableEq, Repr

def digitsToNat (ds : List Char) : Nat :=
  ds.foldl (fun n c => 10 * n + (c.toNat - 48)) 0

/-- Parse an unsigned decimal literal (digits with an optional single
point). -/
def parseUnsigned (cs : List Char) : Option ℚ :=
  let intPart := cs.takeWhile (fun c => c.isDigit)
  let rest := cs.dropWhile (fun c => c.isDigit)
  match rest with
  | [] => if intPart.isEmpty then none else some (digitsToNat intPart : ℚ)
  | '.' :: frac =>
      if frac.all (fun c => c.isDigit) && !(intPart.isEmpty && frac.isEmpty) then
        some ((digitsToNat intPart : ℚ) +
          (digitsToNat frac : ℚ) / ((10 : ℚ) ^ frac.length))
      else none
  | _ => none

/-- `pd.to_numeric(x, errors='coerce')` on one cell, restricted to plain
signed decimal literals (the only shapes the administrative codes take):
numbers pass through, parseable strings are converted, everything else —
including NaN — coerces to NaN. -/
def toNumeric : Cell → Option ℚ
  | Cell.num q => some q
  | Cell.text s =>
      match (pyStrip s).toList with
      | '+' :: rest => parseUnsigned rest
      | '-' :: rest => (parseUnsigned rest).map (fun q => -q)
      | cs => parseUnsigned cs
  | Cell.na => none

/-- The network classification of `SaebPipeline.process`
(cog_03_process_unified_saeb_pypeline.py, lines 186-191): when an
administrative-dependency column resolved, a record is private (0) exactly
when its coerced value equals 4, and public (1) otherwise — including NaN,
since `NaN == 4` is false; when no such column resolved, every record is
public. -/
def classifyNetwork (admResolved : Bool) (c : Cell) : ℚ :=
  if admResolved then (if toNumeric c = some 4 then 0 else 1) else 1

instance : IsTotal String (fun a b => b.length ≤ a.length) :=
  ⟨fun a b => Nat.le_total b.length a.length⟩

instance : IsTrans String (fun a b => b.length ≤ a.length) :=
  ⟨fun _ _ _ h1 h2 => Nat.le_trans h2 h1⟩

/-- Row ordering on composite means: a NaN (`none`) mean sorts after every
numeric mean, numeric means descend. -/
def keyGE : Option ℚ → Option ℚ → Prop
  | some x, some y => y ≤ x
  | some _, none => True
  | none, none => True
  | none, some _ => False

theorem foldl_dictAssign_apply (header : List String)
    (d : String → Option String) (k : String) :
    (header.foldl (fun d h => dictAssign d (pyUpper h) h) d) k =
      match (header.reverse).find? (fun h => pyUpper h = k) with
      | some h => some h
      | none => d k := by
  induction header generalizing d with
  | nil => simp
  | cons h t ih =>
    simp only [List.foldl_cons, List.reverse_cons, List.find?_append]
    rw [ih]
    cases hf : (t.reverse).find? (fun h => pyUpper h = k) with
    | some x => simp
    | none =>
      simp only [Option.none_or, List.find?]
      by_cases hk : pyUpper h = k
      · simp [dictAssign, hk]
      · have h1 : (decide (pyUpper h = k)) = false := by simp [hk]
        simp only [h1]
        have h2 : ¬ k = pyUpper h := fun he => hk he.symm
        simp [dictAssign, h2]

/-- The last-insertion-wins lookup of `headerUpperDict`: looking up `k`
returns the last header entry whose uppercased form is `k`. -/
theorem headerUpperDict_eq (header : List String) (k : String) :
    headerUpperDict header k =
      (header.reverse).find? (fun h => pyUpper h = k) := by
  unfold headerUpperDict
  rw [foldl_dictAssign_apply]
  cases (header.reverse).find? (fun h => pyUpper h = k) <;> simp

theorem headerUpperDict_isSome (header : List String) (k : String) :
    (headerUpperDict header k).isSome =
      header.any (fun h => pyUpper h = k) := by
  rw [headerUpperDict_eq]
  cases hf : (header.reverse).find? (fun h => pyUpper h = k) with
  | some x =>
    have hx := List.find?_some hf
    have hmem : x ∈ header.reverse := List.mem_of_find?_eq_some hf
    simp only [Option.isSome_some]
    symm
    exact List.any_eq_true.mpr ⟨x, List.mem_reverse.mp hmem, hx⟩
  | none =>
    simp only [Option.isSome_none]
    symm
    rw [Bool.eq_false_iff]
    intro hany
    rcases List.any_eq_true.mp hany with ⟨x, hmem, hx⟩
    have := List.find?_eq_none.mp hf x (List.mem_reverse.mpr hmem)
    exact this hx

/-- C4 (amended). Column-resolution order: the resolver tries the candidate
patterns in preference order and returns the header entry exact-matched
(case-insensitively) by the first candidate that matches at all; when several
header entries exact-match that same pattern, the LAST occurrence in header
order wins (the dict comprehension overwrites earlier duplicates).  Only if
no candidate exact-matches does it fall back to case-insensitive substring
containment, returning the first header entry in header order containing the
fallback pattern. -/
theorem find_col_flexible_eq_spec (header candidates : List String)
    (fb : Option String) :
    find_col_flexible header candidates fb = findColSpec header candidates fb := by
  unfold find_col_flexible findColSpec
  have hpred : (fun c => (headerUpperDict header (pyUpper c)).isSome) =
      (fun c => header.any (fun h => pyUpper h = pyUpper c)) := by
    funext c
    rw [headerUpperDict_isSome]
  simp only [hpred]
  cases hf : candidates.find? (fun c => header.any (fun h => pyUpper h = pyUpper c)) with
  | some c => exact headerUpperDict_eq header (pyUpper c)
  | none => rfl

theorem addCol_assoc (a b c : ColState) :
    addCol (addCol a b) c = addCol a (addCol b c) := by
  simp only [addCol, ColState.mk.injEq]
  exact ⟨by ring, by ring, by omega⟩

theorem addCol_zero (a : ColState) : addCol a zeroCol = a := by
  simp [addCol, zeroCol]

theorem zero_addCol (a : ColState) : addCol zeroCol a = a := by
  simp [addCol, zeroCol]

theorem addUF_assoc (a b c : UFState) :
    addUF (addUF a b) c = addUF a (addUF b c) := by
  simp only [addUF, UFState.mk.injEq]
  exact ⟨funext fun i => addCol_assoc _ _ _, by ring, by omega⟩

theorem addUF_zero (a : UFState) : addUF a zeroUF = a := by
  cases a with
  | mk cols ps pc =>
    simp only [addUF, zeroUF, UFState.mk.injEq]
    exact ⟨funext fun i => addCol_zero _, by ring, by omega⟩

theorem zero_addUF (a : UFState) : addUF zeroUF a = a := by
  cases a with
  | mk cols ps pc =>
    simp only [addUF, zeroUF, UFState.mk.injEq]
    exact ⟨funext fun i => zero_addCol _, by ring, by omega⟩

theorem mergeStates_assoc (s t v : AggState) :
    mergeStates (mergeStates s t) v = mergeStates s (mergeStates t v) :=
  funext fun _ => addUF_assoc _ _ _

theorem mergeStates_zero (s : AggState) : mergeStates s zeroState = s :=
  funext fun _ => addUF_zero _

theorem zero_mergeStates (s : AggState) : mergeStates zeroState s = s :=
  funext fun _ => zero_addUF _

theorem addObs_eq_merge (s : AggState) (o : Obs) :
    addObs s o = mergeStates s (addObs zeroState o) := by
  funext u
  by_cases h : u = o.uf
  · simp [addObs, mergeStates, h, zeroState, zero_addUF]
  · simp [addObs, mergeStates, h, zeroState, addUF_zero]

theorem foldl_addObs_merge (l : List Obs) :
    ∀ s : AggState, l.foldl addObs s = mergeStates s (batchState l) := by
  induction l with
  | nil =>
    intro s
    simp [batchState, mergeStates_zero]
  | cons o t ih =>
    intro s
    have h1 : batchState (o :: t) = mergeStates (addObs zeroState o) (batchState t) := by
      show (o :: t).foldl addObs zeroState = _
      rw [List.foldl_cons, ih (addObs zeroState o)]
    rw [List.foldl_cons, ih (addObs s o), h1, addObs_eq_merge s o,
      mergeStates_assoc]

theorem batchState_append (l1 l2 : List Obs) :
    batchState (l1 ++ l2) = mergeStates (batchState l1) (batchState l2) := by
  show (l1 ++ l2).foldl addObs zeroState = _
  rw [List.foldl_append, foldl_addObs_merge]
  rfl

theorem foldl_mergeStates (l : List AggState) :
    ∀ s : AggState, l.foldl mergeStates s
      = mergeStates s (l.foldl mergeStates zeroState) := by
  induction l with
  | nil =>
    intro s
    simp [mergeStates_zero]
  | cons a t ih =>
    intro s
    rw [List.foldl_cons, ih (mergeStates s a), List.foldl_cons,
      ih (mergeStates zeroState a), zero_mergeStates, mergeStates_assoc]

theorem mergeAll_eq_join (batches : List (List Obs)) :
    (batches.map batchState).foldl mergeStates zeroState
      = batchState batches.flatten := by
  induction batches with
  | nil => rfl
  | cons b bs ih =>
    rw [List.map_cons, List.foldl_cons, foldl_mergeStates, zero_mergeStates,
      ih, List.flatten_cons, batchState_append]

/-- C1. Batch invariance of the Aggregator: for every list of normalized
observations and every partition of it into batches, merging the per-batch
partial states (per geo unit the running sum, sum of squares and count per
aggregated column, plus the network sums) and then finalizing yields the
same summary for every geo unit — the same per-subject means, the same
standard deviations (equal clipped variances, hence equal square roots),
and the same record counts — as aggregating the whole list as one batch. -/
theorem claim1_batch_invariance (batches : List (List Obs)) :
    (batches.map batchState).foldl mergeStates zeroState
        = batchState batches.flatten
    ∧ (∀ u : String,
        finalizeState ((batches.map batchState).foldl mergeStates zeroState) u
          = finalizeState (batchState batches.flatten) u)
    ∧ (∀ (u : String) (i : Fin 6),
        Option.map (fun q : ℚ => Real.sqrt (q : ℝ))
            ((finalizeState
              ((batches.map batchState).foldl mergeStates zeroState) u).varClip i)
          = Option.map (fun q : ℚ => Real.sqrt (q : ℝ))
            ((finalizeState (batchState batches.flatten) u).varClip i)) := by
  refine ⟨mergeAll_eq_join batches, ?_, ?_⟩
  · intro u
    rw [mergeAll_eq_join batches]
  · intro u i
    rw [mergeAll_eq_join batches]

/-- C2 (counterexample). On the spec's own scenario — header
`["ID_UF","MEDIA_EM_LP","MEDIA_EM_MT"]`, records `(ID_UF 35, LP 500, MT
520)` and `(ID_UF 35, LP 0, MT 480)` — the SAEB pipeline does NOT treat the
zero as missing: it has no `replace(0, nan)` step, so the summary for SP is
Language 250, Math 500, composite 375, not the claimed 500/500/500. -/
theorem claim2_counterexample :
    saebAggregate [⟨35, some 500, some 520⟩, ⟨35, some 0, some 480⟩]
        = [⟨"SP", 250, 500, 375⟩]
    ∧ ¬ (saebAggregate [⟨35, some 500, some 520⟩, ⟨35, some 0, some 480⟩]
        = [⟨"SP", 500, 500, 500⟩]) := by
  constructor
  · norm_num [saebAggregate, IBGE_TO_SIGLA, List.lookup, List.dedup,
      List.insertionSort, List.orderedInsert, List.filter, List.filterMap,
      SaebRow.mk.injEq]
  · norm_num [saebAggregate, IBGE_TO_SIGLA, List.lookup, List.dedup,
      List.insertionSort, List.orderedInsert, List.filter, List.filterMap,
      SaebRow.mk.injEq]

/-- C2 (amended). Zero-as-missing normalization holds in the historical ENEM
pipeline, not in the SAEB one: ENEM's `replace(0, np.nan)` turns a raw
subject score of exactly zero into Missing, which is then excluded from that
subject's aggregate only, while the record's other subjects still count.  On
the ENEM analogue of the scenario (two SP records, Language 500 and 0, Math
520 and 480), the SP summary has Language mean 500 over one record and Math
mean 500 over two records. -/
theorem claim2_enem_zero_missing (r : RawEnemObs) (i : Fin 5)
    (h : r.raw i = some 0) :
    (cleanObs r).scores i = none
    ∧ (finalizeState (batchState
        [cleanObs ⟨"SP",
            (fun j => if j.val = 2 then some 500
              else if j.val = 3 then some 520 else none), none⟩,
         cleanObs ⟨"SP",
            (fun j => if j.val = 2 then some 0
              else if j.val = 3 then some 480 else none), none⟩]) "SP").mean 2
        = some 500
    ∧ (finalizeState (batchState
        [cleanObs ⟨"SP",
            (fun j => if j.val = 2 then some 500
              else if j.val = 3 then some 520 else none), none⟩,
         cleanObs ⟨"SP",
            (fun j => if j.val = 2 then some 0
              else if j.val = 3 then some 480 else none), none⟩]) "SP").cnt 2
        = 1
    ∧ (finalizeState (batchState
        [cleanObs ⟨"SP",
            (fun j => if j.val = 2 then some 500
              else if j.val = 3 then some 520 else none), none⟩,
         cleanObs ⟨"SP",
            (fun j => if j.val = 2 then some 0
              else if j.val = 3 then some 480 else none), none⟩]) "SP").mean 3
        = some 500
    ∧ (finalizeState (batchState
        [cleanObs ⟨"SP",
            (fun j => if j.val = 2 then some 500
              else if j.val = 3 then some 520 else none), none⟩,
         cleanObs ⟨"SP",
            (fun j => if j.val = 2 then some 0
              else if j.val = 3 then some 480 else none), none⟩]) "SP").cnt 3
        = 2 := by
  refine ⟨?_, ?_, ?_, ?_, ?_⟩
  · show cleanZero (r.raw i) = none
    rw [h]
    rfl
  all_goals
    have e2 : ((2 : Fin 6) : Nat) = 2 := rfl
    have e3 : ((3 : Fin 6) : Nat) = 3 := rfl
    norm_num [finalizeState, batchState, addObs, cleanObs, cleanZero, obsUF,
      targetVal, composite, compositeVals, List.filterMap, List.finRange,
      colMean, zeroState, zeroUF, zeroCol, addUF, addCol, addVal,
      Fin.isValue, List.foldl, e2, e3]

theorem claim2_enem_zero_missing_witness :
    (cleanObs ⟨"SP",
        (fun j => if j.val = 2 then some 0
          else if j.val = 3 then some 480 else none), none⟩).scores 2 = none
    ∧ (finalizeState (batchState
        [cleanObs ⟨"SP",
            (fun j => if j.val = 2 then some 500
              else if j.val = 3 then some 520 else none), none⟩,
         cleanObs ⟨"SP",
            (fun j => if j.val = 2 then some 0
              else if j.val = 3 then some 480 else none), none⟩]) "SP").mean 2
        = some 500 := by
  have h := claim2_enem_zero_missing
    ⟨"SP", (fun j => if j.val = 2 then some 0
      else if j.val = 3 then some 480 else none), none⟩ 2 (by norm_num)
  exact ⟨h.1, h.2.1⟩

/-- C3 (counterexample). For a header containing none of the GeoUnit
candidate patterns, column resolution does NOT raise anything: there is no
`SchemaResolutionError` anywhere in the code; `find_col_flexible` simply
returns `None` (a silently absent field), and the pipeline later either
skips silently or dies in a blanket `except` block. -/
theorem claim3_counterexample :
    find_col_flexible ["NU_NOTA_MT", "NU_NOTA_LC"] geoCandidatesSaeb none
      = none := by
  decide

/-- C3 (amended). When no candidate pattern of the mandatory GeoUnit field
matches any header entry (case-insensitively), `find_col_flexible` returns
`None` — a schema with the field silently absent — rather than raising a
`SchemaResolutionError`, which does not exist in this code base. -/
theorem claim3_missing_geo_silent (header : List String)
    (hnone : ∀ h ∈ header, ∀ c ∈ geoCandidatesSaeb, pyUpper h ≠ pyUpper c) :
    find_col_flexible header geoCandidatesSaeb none = none := by
  unfold find_col_flexible
  have hfind : geoCandidatesSaeb.find?
      (fun c => (headerUpperDict header (pyUpper c)).isSome) = none := by
    rw [List.find?_eq_none]
    intro c hc
    rw [headerUpperDict_isSome]
    simp only [List.any_eq_true, not_exists, not_and, Bool.not_eq_true]
    intro h hh
    simp only [decide_eq_false_iff_not]
    exact hnone h hh c hc
  simp only [hfind]

theorem claim3_missing_geo_silent_witness :
    find_col_flexible ["ANO", "NOTA"] geoCandidatesSaeb none = none :=
  claim3_missing_geo_silent ["ANO", "NOTA"] (by decide)

/-- C4 (counterexample). When two header entries exact-match the same
candidate pattern case-insensitively, the resolver returns the LAST
occurrence in header order, not the first as the claim states: on header
`["id_uf", "ID_UF"]` with candidate `ID_UF`, the dict comprehension lets
`"ID_UF"` overwrite `"id_uf"`. -/
theorem claim4_counterexample :
    find_col_flexible ["id_uf", "ID_UF"] ["ID_UF"] none = some "ID_UF"
    ∧ ¬ (find_col_flexible ["id_uf", "ID_UF"] ["ID_UF"] none
        = some "id_uf") := by
  constructor
  · decide
  · decide

/-- C5. Cohort-filter policy selection and provenance: the unified ENEM
pipeline uses exactly one of three policies determined by which optional
columns resolved — STRICT when the status column resolved (accept exactly
the records whose status equals the sentinel 2, so status 3 is rejected even
with all scores valid), PROXY when no status column but the school id
resolved (accept exactly the records with a non-missing id), ALL_DATA
otherwise (accept everything) — and every emitted row carries the policy as
its grade/mode tag. -/
theorem claim5_cohort_policy (header : List String) (r : EnemRec)
    (recs : List EnemRec) :
    (filterMode header = Mode.strict ↔ hasStatusCol header = true)
    ∧ (filterMode header = Mode.proxy
        ↔ (hasStatusCol header = false ∧ hasSchoolCol header = true))
    ∧ (filterMode header = Mode.allData
        ↔ (hasStatusCol header = false ∧ hasSchoolCol header = false))
    ∧ (accepts Mode.strict r = true ↔ r.status = some 2)
    ∧ accepts Mode.strict { r with status := some 3 } = false
    ∧ (accepts Mode.proxy r = true ↔ r.schoolId.isSome = true)
    ∧ accepts Mode.allData r = true
    ∧ (∀ row ∈ enemUnifiedRows header recs, row.2 = filterMode header) := by
  refine ⟨?_, ?_, ?_, ?_, ?_, ?_, rfl, ?_⟩
  · unfold filterMode
    by_cases h1 : hasStatusCol header <;> by_cases h2 : hasSchoolCol header <;>
      simp [h1, h2]
  · unfold filterMode
    by_cases h1 : hasStatusCol header <;> by_cases h2 : hasSchoolCol header <;>
      simp [h1, h2]
  · unfold filterMode
    by_cases h1 : hasStatusCol header <;> by_cases h2 : hasSchoolCol header <;>
      simp [h1, h2]
  · simp [accepts]
  · norm_num [accepts]
  · simp [accepts]
  · intro row hrow
    simp only [enemUnifiedRows, List.mem_map] at hrow
    obtain ⟨u, _, hu⟩ := hrow
    rw [← hu]

theorem claim5_cohort_policy_witness :
    filterMode ["SG_UF_PROVA", "TP_ST_CONCLUSAO"] = Mode.strict
    ∧ accepts Mode.strict ⟨"SP", some 3, none, fun _ => some 500⟩ = false
    ∧ ("SP", Mode.strict).2 = filterMode ["SG_UF_PROVA", "TP_ST_CONCLUSAO"] := by
  have h := claim5_cohort_policy ["SG_UF_PROVA", "TP_ST_CONCLUSAO"]
    ⟨"SP", some 3, none, fun _ => some 500⟩
    [⟨"SP", some 2, none, fun _ => some 500⟩]
  refine ⟨h.1.mpr (by decide), ?_, ?_⟩
  · exact h.2.2.2.2.1
  · exact (h.2.2.2.2.2.2.2 ("SP", Mode.strict) (by decide)).symm ▸ rfl

theorem filterMap_eq_map_of_all {α β : Type} (l : List α) (f : α → Option β)
    (g : α → β) (h : ∀ a ∈ l, f a = some (g a)) :
    l.filterMap f = l.map g := by
  induction l with
  | nil => rfl
  | cons a t ih =>
    rw [List.filterMap_cons, h a (List.mem_cons_self a t), List.map_cons,
      ih (fun b hb => h b (List.mem_cons_of_mem a hb))]

theorem dedup_map_const {α β : Type} [DecidableEq α] (c : α) :
    ∀ (l : List β), l ≠ [] → (l.map (fun _ => c)).dedup = [c] := by
  intro l
  induction l with
  | nil => intro h; exact absurd rfl h
  | cons a t ih =>
    intro _
    rw [List.map_cons]
    cases t with
    | nil => simp
    | cons b t2 =>
      rw [List.dedup_cons_of_mem]
      · exact ih (by simp)
      · exact List.mem_map.mpr ⟨b, by simp, rfl⟩

/-- C7. Granularity reconciliation by unweighted mean: when every state row
maps to the same parent region, `aggregate_to_region` emits exactly one
region row whose statistic is the unweighted arithmetic mean of the
state-level statistics — with no reference to any underlying record counts,
which the state table does not even carry. -/
theorem claim7_region_unweighted_mean (rows : List (String × ℚ)) (rg : String)
    (hne : rows ≠ [])
    (hall : ∀ p ∈ rows, UF_TO_REGION.lookup p.1 = some rg) :
    aggregate_to_region rows
      = [(rg, (rows.map Prod.snd).sum / (rows.length : ℚ))] := by
  unfold aggregate_to_region
  have hkeyed : rows.filterMap
      (fun p => (UF_TO_REGION.lookup p.1).map (fun r => (r, p.2)))
      = rows.map (fun p => (rg, p.2)) := by
    refine filterMap_eq_map_of_all rows _ _ (fun p hp => ?_)
    rw [hall p hp]
    rfl
  dsimp only
  rw [hkeyed, List.map_map]
  have hconst : (Prod.fst ∘ fun p : String × ℚ => (rg, p.2)) = fun _ => rg := by
    funext p
    rfl
  rw [hconst, dedup_map_const rg rows hne]
  have hsort : List.insertionSort (fun a b => a ≤ b) [rg] = [rg] := rfl
  rw [hsort, List.map_cons, List.map_nil]
  have hfil : (rows.map (fun p : String × ℚ => (rg, p.2))).filter
      (fun q => decide (q.1 = rg)) = rows.map (fun p => (rg, p.2)) := by
    rw [List.filter_eq_self]
    intro x hx
    obtain ⟨p, _, hp⟩ := List.mem_map.mp hx
    rw [← hp]
    simp
  rw [hfil, List.map_map]
  have hsnd : (Prod.snd ∘ fun p : String × ℚ => (rg, p.2)) = Prod.snd := by
    funext p
    rfl
  rw [hsnd, List.length_map]

theorem claim7_region_unweighted_mean_witness :
    aggregate_to_region [("SP", 500), ("RJ", 480), ("MG", 460)]
      = [("Southeast", 480)] := by
  rw [claim7_region_unweighted_mean [("SP", 500), ("RJ", 480), ("MG", 460)]
    "Southeast" (by decide) (by decide)]
  norm_num

/-- C8. Composite-stratum-prefix decoding: for every raw stratum whose
normalized (uppercased, stripped) form begins with the country prefix `BRA`,
the region is decoded by slicing the two digits at offset 3 and mapping them
through the fixed table 01 to North, 02 to Northeast, 03 to Southeast, 04 to
South, 05 to Center-West (any other digits give UNKNOWN). -/
theorem claim8_stratum_prefix_decode (stratum : String)
    (h : pyStartsWith (pyStrip (pyUpper stratum)) "BRA" = true) :
    get_region_code_2018 stratum
      = (regionDigitTable (strSlice (pyStrip (pyUpper stratum)) 3 5)).getD
          "UNKNOWN" := by
  unfold get_region_code_2018
  dsimp only
  rw [h]
  by_cases h1 : strSlice (pyStrip (pyUpper stratum)) 3 5 = "01"
  · simp [regionDigitTable, h1]
  by_cases h2 : strSlice (pyStrip (pyUpper stratum)) 3 5 = "02"
  · simp [regionDigitTable, h1, h2]
  by_cases h3 : strSlice (pyStrip (pyUpper stratum)) 3 5 = "03"
  · simp [regionDigitTable, h1, h2, h3]
  by_cases h4 : strSlice (pyStrip (pyUpper stratum)) 3 5 = "04"
  · simp [regionDigitTable, h1, h2, h3, h4]
  by_cases h5 : strSlice (pyStrip (pyUpper stratum)) 3 5 = "05"
  · simp [regionDigitTable, h1, h2, h3, h4, h5]
  · simp [regionDigitTable, h1, h2, h3, h4, h5]

theorem claim8_stratum_prefix_decode_witness :
    pyStartsWith (pyStrip (pyUpper "BRA0213")) "BRA" = true
    ∧ get_region_code_2018 "BRA0213" = "Northeast" := by
  refine ⟨by decide, ?_⟩
  rw [claim8_stratum_prefix_decode "BRA0213" (by decide)]
  decide

theorem lookup_mem {l : List (String × Nat)} {k : String} {v : Nat}
    (h : l.lookup k = some v) : (k, v) ∈ l := by
  induction l with
  | nil => simp [List.lookup] at h
  | cons p t ih =>
    rw [List.lookup] at h
    cases hk : (k == p.1) with
    | true =>
      rw [hk] at h
      simp only [cond_true, Option.some.injEq] at h
      have hk1 : k = p.1 := by simpa using hk
      have hkv : (k, v) = p := by
        cases p with
        | mk a b =>
          rw [Prod.mk.injEq]
          exact ⟨hk1, h.symm⟩
      rw [hkv]
      exact List.mem_cons_self p t
    | false =>
      rw [hk] at h
      simp only [cond_false] at h
      exact List.mem_cons_of_mem p (ih h)

theorem mem_fst_lookup_isSome {l : List (String × Nat)} {k : String}
    (h : k ∈ l.map Prod.fst) : (l.lookup k).isSome = true := by
  induction l with
  | nil => simp at h
  | cons p t ih =>
    rw [List.lookup]
    cases hk : (k == p.1) with
    | true => simp
    | false =>
      simp only [cond_false]
      rcases List.mem_map.mp h with ⟨q, hq, hq1⟩
      rcases List.mem_cons.mp hq with rfl | hq2
      · exact absurd hq1.symm (beq_eq_false_iff_ne.mp hk)
      · exact ih (List.mem_map.mpr ⟨q, hq2, hq1⟩)

theorem find?_sorted_le {α : Type} {r : α → α → Prop} {p : α → Bool} :
    ∀ {l : List α}, l.Pairwise r → ∀ {x}, l.find? p = some x →
      ∀ {y}, y ∈ l → p y = true → x = y ∨ r x y := by
  intro l
  induction l with
  | nil => intro _ x hx; simp at hx
  | cons a t ih =>
    intro hp x hx y hy hpy
    have ha : ∀ b ∈ t, r a b := fun b hb => List.rel_of_pairwise_cons hp hb
    rw [List.find?_cons] at hx
    cases pa : p a with
    | true =>
      rw [pa] at hx
      simp only [cond_true, Option.some.injEq] at hx
      subst hx
      rcases List.mem_cons.mp hy with rfl | hyt
      · exact Or.inl rfl
      · exact Or.inr (ha y hyt)
    | false =>
      rw [pa] at hx
      simp only [cond_false] at hx
      rcases List.mem_cons.mp hy with rfl | hyt
      · rw [hpy] at pa; exact absurd pa (by simp)
      · exact ih (List.Pairwise.sublist (List.sublist_cons_self a t) hp) hx hyt hpy

/-- C9. Text-name longest-substring-first resolution: whenever any
dictionary name is contained in the uppercased raw text, the resolver
returns the IBGE code of a contained dictionary name that is at least as
long as every other contained name (names are scanned longest first, first
match wins). -/
theorem claim9_text_longest_first (t n' : String) (c' : Nat)
    (hmem : (n', c') ∈ NAME_TO_IBGE)
    (hcont : strContains (pyUpper t) n' = true) :
    ∃ n c, (n, c) ∈ NAME_TO_IBGE
      ∧ strContains (pyUpper t) n = true
      ∧ n'.length ≤ n.length
      ∧ resolve_ibge_from_text t = some c := by
  have hmem' : n' ∈ sortedNamesByLen := by
    rw [sortedNamesByLen, List.mem_insertionSort]
    exact List.mem_map.mpr ⟨(n', c'), hmem, rfl⟩
  obtain ⟨n, hfind⟩ : ∃ n,
      sortedNamesByLen.find? (fun m => strContains (pyUpper t) m) = some n := by
    cases hf : sortedNamesByLen.find? (fun m => strContains (pyUpper t) m) with
    | some n => exact ⟨n, rfl⟩
    | none => exact absurd hcont (List.find?_eq_none.mp hf n' hmem')
  have hpn : strContains (pyUpper t) n = true := List.find?_some hfind
  have hnmem : n ∈ sortedNamesByLen := List.mem_of_find?_eq_some hfind
  have hnnames : n ∈ NAME_TO_IBGE.map Prod.fst := by
    rw [sortedNamesByLen, List.mem_insertionSort] at hnmem
    exact hnmem
  obtain ⟨c, hc⟩ := Option.isSome_iff_exists.mp (mem_fst_lookup_isSome hnnames)
  have hsorted : sortedNamesByLen.Pairwise (fun a b => b.length ≤ a.length) :=
    List.sorted_insertionSort _ _
  have hlen := find?_sorted_le hsorted hfind hmem' hcont
  refine ⟨n, c, lookup_mem hc, hpn, ?_, ?_⟩
  · rcases hlen with rfl | hle
    · exact Nat.le_refl _
    · exact hle
  · unfold resolve_ibge_from_text
    dsimp only
    rw [hfind]
    exact hc

theorem claim9_text_longest_first_witness :
    (resolve_ibge_from_text "SÃO PAULO - CAPITAL").isSome = true
    ∧ resolve_ibge_from_text "SÃO PAULO - CAPITAL" = some 35 := by
  obtain ⟨n, c, _, _, _, hres⟩ := claim9_text_longest_first
    "SÃO PAULO - CAPITAL" "SÃO PAULO" 35 (by decide) (by decide)
  constructor
  · rw [hres]
    rfl
  · decide

/-- C10. Implicit network-classification default: with an
administrative-dependency column resolved, a record is private (`Is_Public =
0`) if and only if its value coerces to the number 4; any other value —
including strings that fail numeric parsing and missing values, which
coerce to NaN — is public (`Is_Public = 1`); with no such column resolved,
every record is public. -/
theorem claim10_network_default (c : Cell) :
    (classifyNetwork true c = 0 ↔ toNumeric c = some 4)
    ∧ (classifyNetwork true c = 0 ∨ classifyNetwork true c = 1)
    ∧ classifyNetwork true (Cell.text "4") = 0
    ∧ classifyNetwork true (Cell.text "ABC") = 1
    ∧ toNumeric (Cell.text "ABC") = none
    ∧ classifyNetwork true Cell.na = 1
    ∧ classifyNetwork false c = 1 := by
  refine ⟨?_, ?_, ?_, ?_, ?_, ?_, rfl⟩
  · unfold classifyNetwork
    by_cases h : toNumeric c = some 4
    · simp [h]
    · simp only [if_true, if_neg h, h, iff_false]
      norm_num
  · unfold classifyNetwork
    by_cases h : toNumeric c = some 4
    · exact Or.inl (by simp [h])
    · exact Or.inr (by simp [h])
  · have h4 : toNumeric (Cell.text "4") = some 4 := by decide
    simp [classifyNetwork, h4]
  · have habc : toNumeric (Cell.text "ABC") = none := by decide
    simp [classifyNetwork, habc]
  · decide
  · simp [classifyNetwork, toNumeric]


theorem foldl_addUF (l : List UFState) :
    ∀ z : UFState, l.foldl addUF z = addUF z (l.foldl addUF zeroUF) := by
  induction l with
  | nil =>
    intro z
    simp [addUF_zero]
  | cons a t ih =>
    intro z
    rw [List.foldl_cons, ih (addUF z a), List.foldl_cons,
      ih (addUF zeroUF a), zero_addUF, addUF_assoc]

theorem batchState_filter (l : List Obs) (u : String) :
    batchState l u
      = ((l.filter (fun o => decide (o.uf = u))).map obsUF).foldl addUF
          zeroUF := by
  induction l with
  | nil => rfl
  | cons o t ih =>
    have hsplit : batchState (o :: t) u
        = addUF (addObs zeroState o u) (batchState t u) := by
      show ((o :: t).foldl addObs zeroState) u = _
      rw [List.foldl_cons, foldl_addObs_merge t (addObs zeroState o)]
      rfl
    rw [hsplit]
    by_cases hc : o.uf = u
    · rw [List.filter_cons_of_pos (by simpa using hc), List.map_cons,
        List.foldl_cons, foldl_addUF, zero_addUF]
      have h1 : addObs zeroState o u = obsUF o := by
        simp [addObs, hc.symm, zeroState, zero_addUF]
      rw [h1, ih]
    · rw [List.filter_cons_of_neg (by simpa using hc)]
      have hne : ¬ u = o.uf := fun h => hc h.symm
      have h1 : addObs zeroState o u = zeroUF := by
        simp [addObs, hne, zeroState]
      rw [h1, zero_addUF, ih]

theorem nodup_filter_singleton :
    ∀ (us : List String) (u : String), us.Nodup → u ∈ us →
      us.filter (fun v => decide (v = u)) = [u] := by
  intro us
  induction us with
  | nil =>
    intro u _ hu
    simp at hu
  | cons a t ih =>
    intro u hnd hu
    rcases List.mem_cons.mp hu with rfl | hut
    · rw [List.filter_cons_of_pos (by simp)]
      have hnin : u ∉ t := (List.nodup_cons.mp hnd).1
      have h1 : t.filter (fun v => decide (v = u)) = [] := by
        rw [List.filter_eq_nil_iff]
        intro b hb
        simp only [decide_eq_true_eq]
        intro hba
        exact hnin (hba ▸ hb)
      rw [h1]
    · have hna : ¬ (a = u) := by
        intro h
        exact (List.nodup_cons.mp hnd).1 (h ▸ hut)
      rw [List.filter_cons_of_neg (by simp [hna]),
        ih u (List.nodup_cons.mp hnd).2 hut]

theorem rawRows_const (us : List String) (sc : Fin 5 → Option ℚ) (q : ℚ)
    (hsorted : us.Pairwise (fun a b : String => a ≤ b)) (hnd : us.Nodup)
    (hcomp : composite ⟨"", sc, none⟩ = some q) :
    rawRows (us.map (fun u => ⟨u, sc, none⟩))
      = us.map (fun u => (u, some q)) := by
  have hufs : presentUFs (us.map (fun u => ⟨u, sc, none⟩)) = us := by
    unfold presentUFs
    rw [List.map_map]
    have h1 : (Obs.uf ∘ fun u => (⟨u, sc, none⟩ : Obs)) = id := by
      funext v
      rfl
    rw [h1, List.map_id, List.dedup_eq_self.mpr hnd]
    exact List.Sorted.insertionSort_eq hsorted
  unfold rawRows
  rw [hufs]
  refine List.map_congr_left (fun u hu => ?_)
  have hmean : meanGeneralOf (us.map (fun v => (⟨v, sc, none⟩ : Obs))) u
      = some q := by
    unfold meanGeneralOf
    rw [batchState_filter]
    have hfil : (us.map (fun v => (⟨v, sc, none⟩ : Obs))).filter
        (fun o => decide (o.uf = u)) = [⟨u, sc, none⟩] := by
      rw [List.filter_map]
      have h2 : ((fun o : Obs => decide (o.uf = u))
          ∘ fun v => (⟨v, sc, none⟩ : Obs)) = fun v => decide (v = u) := by
        funext v
        rfl
      rw [h2, nodup_filter_singleton us u hnd hu]
      rfl
    rw [hfil]
    show colMean ((List.foldl addUF zeroUF [obsUF ⟨u, sc, none⟩]).cols 5)
      = some q
    rw [List.foldl_cons, List.foldl_nil, zero_addUF]
    have hcols : (obsUF ⟨u, sc, none⟩).cols 5 = addVal zeroCol (some q) := by
      show addVal zeroCol (targetVal ⟨u, sc, none⟩ 5) = _
      have ht : targetVal ⟨u, sc, none⟩ 5 = some q := by
        unfold targetVal
        rw [dif_neg (by decide)]
        exact hcomp
      rw [ht]
    rw [hcols]
    norm_num [addVal, zeroCol, colMean]
  rw [hmean]

theorem tieObs_rawRows : rawRows tieObs =
    ["AC", "AL", "AM", "AP", "BA", "CE", "DF", "ES", "GO", "MA", "MG", "MS",
     "MT", "PA", "PB", "PE", "PI"].map (fun u => (u, some (500 : ℚ))) := by
  show rawRows (["AC", "AL", "AM", "AP", "BA", "CE", "DF", "ES", "GO", "MA",
      "MG", "MS", "MT", "PA", "PB", "PE", "PI"].map
      (fun u => (⟨u, (fun j => if j.val = 0 then some 500 else none),
        none⟩ : Obs))) = _
  refine rawRows_const _ _ 500 ?_ (by decide) ?_
  · have hlt : (["AC", "AL", "AM", "AP", "BA", "CE", "DF", "ES", "GO", "MA",
        "MG", "MS", "MT", "PA", "PB", "PE", "PI"] : List String).Pairwise
        (fun a b : String => ¬ b.toList < a.toList) := by decide
    refine hlt.imp (fun h => not_lt.mp (fun hb => h ?_))
    exact String.lt_iff_toList_lt.mp hb
  · norm_num [composite, compositeVals, List.finRange, List.filterMap]

/-- C6 (counterexample). The cohort tables have one row per geo unit — up to
27 — and numpy's default quicksort argsort insertion-sorts only ranges of at
most 16 entries, so on a 17-row all-tied table the program's sort gives no
tie-break guarantee: the run below, admitted by `finalRowsRel`, emits the
equal-mean rows in DESCENDING geo-unit order, falsifying the claim that the
lexicographically smaller geo unit always comes first. -/
theorem claim6_counterexample :
    finalRowsRel tieObs tieOut
    ∧ ¬ tieOut.Pairwise (fun a b : String × Option ℚ =>
        keyGE a.2 b.2 ∧ (a.2 = b.2 → a.1 < b.1)) := by
  constructor
  · refine ⟨tieRowsDesc, ?_, ?_, ?_⟩
    · have hasc : (rawRows tieObs).filterMap
          (fun p => (p.2).map (fun q => (p.1, q)))
          = ["AC", "AL", "AM", "AP", "BA", "CE", "DF", "ES", "GO", "MA",
             "MG", "MS", "MT", "PA", "PB", "PE", "PI"].map
            (fun u => (u, (500 : ℚ))) := by
        rw [tieObs_rawRows]
        decide
      rw [hasc]
      have hrev : tieRowsDesc
          = (["AC", "AL", "AM", "AP", "BA", "CE", "DF", "ES", "GO", "MA",
              "MG", "MS", "MT", "PA", "PB", "PE", "PI"].map
              (fun u => (u, (500 : ℚ)))).reverse := by decide
      rw [hrev]
      exact (List.reverse_perm _).symm
    · decide
    · rw [tieObs_rawRows]
      decide
  · intro h
    have hmem : (("AC", some (500 : ℚ)) : String × Option ℚ) ∈
        [("PE", some (500 : ℚ)), ("PB", some 500), ("PA", some 500),
         ("MT", some 500), ("MS", some 500), ("MG", some 500),
         ("MA", some 500), ("GO", some 500), ("ES", some 500),
         ("DF", some 500), ("CE", some 500), ("BA", some 500),
         ("AP", some 500), ("AM", some 500), ("AL", some 500),
         ("AC", some 500)] := by decide
    have htie := List.rel_of_pairwise_cons h hmem
    have hnlt : ¬ (("PI" : String) < "AC") := by
      rw [String.lt_iff_toList_lt]
      decide
    exact absurd (htie.2 rfl) hnlt

/-- C6 (amended). Finalize ordering: every emitted row sequence is sorted by
composite mean descending, with NaN composites last; the relative order of
rows with equal composite means is NOT specified — the sort key is
`Mean_General` alone, and the unstable quicksort argsort provides no
geo-unit tie-break. -/
theorem claim6_finalize_descending (l : List Obs)
    (out : List (String × Option ℚ)) (h : finalRowsRel l out) :
    out.Pairwise (fun a b : String × Option ℚ => keyGE a.2 b.2) := by
  obtain ⟨s, _hperm, hsorted, hout⟩ := h
  subst hout
  refine List.pairwise_append.mpr ⟨?_, ?_, ?_⟩
  · refine List.pairwise_map.mpr (hsorted.imp ?_)
    intro a b hab
    exact hab
  · refine List.pairwise_of_forall_mem_list (fun a ha b hb => ?_)
    have hanone : a.2 = none :=
      Option.isNone_iff_eq_none.mp (by simpa using (List.mem_filter.mp ha).2)
    have hbnone : b.2 = none :=
      Option.isNone_iff_eq_none.mp (by simpa using (List.mem_filter.mp hb).2)
    rw [hanone, hbnone]
    exact True.intro
  · intro a ha b hb
    obtain ⟨p, _, hp⟩ := List.mem_map.mp ha
    have hbnone : b.2 = none :=
      Option.isNone_iff_eq_none.mp (by simpa using (List.mem_filter.mp hb).2)
    rw [← hp, hbnone]
    exact True.intro

theorem claim6_finalize_descending_witness :
    ([("SP", (none : Option ℚ))] : List (String × Option ℚ)).Pairwise
      (fun a b : String × Option ℚ => keyGE a.2 b.2) := by
  refine claim6_finalize_descending [⟨"SP", fun _ => none, none⟩]
    [("SP", none)] ⟨[], ?_, List.Pairwise.nil, ?_⟩
  · have h0 : (rawRows [(⟨"SP", fun _ => none, none⟩ : Obs)]).filterMap
        (fun p => (p.2).map (fun q => (p.1, q))) = [] := by decide
    rw [h0]
  · decide
